import Mathlib

/-
Verification of the StableRandom pseudo-random number generator
(a Mersenne Twister MT19937 variant, file stable_random.py).

The generator state is a record of the stored seed (`_seed`), the
624-element twister array (`mt`) and the cursor (`index`).  Machine
integers are modelled as `Nat` with explicit 32-bit masking where the
source masks; the uniform float in `random` is modelled as the exact
rational `int32(tempered) / 0xFFFFFFFF`, and Python's `int(...)`
truncation toward zero on floats is modelled by `intTrunc` on `ℚ`.
-/

set_option maxRecDepth 100000

/-- Generator state: stored seed `_seed`, twister array `mt`, cursor `index`. -/
structure StableRandom where
  seedStored : Nat
  mt : List Nat
  index : Nat
deriving DecidableEq

namespace StableRandom

/-- `_int32(x)`: the 32 least significant bits, `int(0xFFFFFFFF & x)`. -/
def int32 (x : Nat) : Nat := 0xFFFFFFFF &&& x

/-- The seed derived from a wall-clock time `t` (in seconds, nonnegative):
`int(time.time() * 256)`.  For nonnegative `t` Python's truncating `int`
coincides with the floor, and `Int.toNat` is the identity on the result. -/
def seedFromTime (t : ℚ) : Nat := (⌊t * 256⌋).toNat

/-- `seed(seed)`: resolve the optional argument; `None` falls back to the
time-derived value.  No masking is applied. -/
def resolveSeed (s : Option Nat) (t : ℚ) : Nat :=
  match s with
  | some v => v
  | none => seedFromTime t

/-- The `seed` method: stores the resolved seed in `self._seed` and touches
nothing else. -/
def seedMethod (st : StableRandom) (s : Option Nat) (t : ℚ) : StableRandom :=
  { st with seedStored := resolveSeed s t }

/-- The tail of the `__init__` loop: `initAux prev i n` produces the values
at indices `i, i+1, ..., i+n-1`, where `prev` is the value at index `i-1`:
`mt[i] = _int32(1812433253 * (mt[i-1] ^ mt[i-1] >> 30) + i)`. -/
def initAux (prev i : Nat) : Nat → List Nat
  | 0 => []
  | n+1 =>
    let v := int32 (1812433253 * (prev ^^^ (prev >>> 30)) + i)
    v :: initAux v (i+1) n

/-- The array built by `__init__`: `mt[0] = self._seed` (unmasked), then the
recurrence for indices `1..623`. -/
def initMt (s : Nat) : List Nat := s :: initAux s 1 623

/-- The constructor `__init__(seed)`: store the resolved seed, build the
624-element array, set the cursor to 624. -/
def init (s : Option Nat) (t : ℚ) : StableRandom :=
  { seedStored := resolveSeed s t, mt := initMt (resolveSeed s t), index := 624 }

/-- One iteration of the `_twist` loop at index `i`, mutating the array in
place: `y = _int32((mt[i] & 0x80000000) + (mt[(i+1) % 624] & 0x7fffffff))`;
`mt[i] = mt[(i+397) % 624] ^ y >> 1`; and if `y` is odd additionally
`mt[i] = mt[i] ^ 0x9908b0df`. -/
def twistStep (mt : List Nat) (i : Nat) : List Nat :=
  let y := int32 ((mt.getD i 0 &&& 0x80000000) + (mt.getD ((i+1) % 624) 0 &&& 0x7fffffff))
  let v := mt.getD ((i+397) % 624) 0 ^^^ (y >>> 1)
  mt.set i (if y % 2 ≠ 0 then v ^^^ 0x9908b0df else v)

/-- The full `_twist` pass over the array: indices `0, 1, ..., 623` in order,
each step reading the partially updated array. -/
def twistMt (mt : List Nat) : List Nat := (List.range 624).foldl twistStep mt

/-- The first `n` iterations of the `_twist` loop. -/
def twistUpTo (mt : List Nat) : Nat → List Nat
  | 0 => mt
  | n+1 => twistStep (twistUpTo mt n) n

/-- `_twist(self)`: regenerate the array and reset the cursor to 0. -/
def twist (st : StableRandom) : StableRandom :=
  { st with mt := twistMt st.mt, index := 0 }

/-- The tempering transform applied in `random`:
`y ^= y >> 11; y ^= y << 7 & 2636928640; y ^= y << 15 & 4022730752; y ^= y >> 18`. -/
def temper (y : Nat) : Nat :=
  let y1 := y ^^^ (y >>> 11)
  let y2 := y1 ^^^ ((y1 <<< 7) &&& 2636928640)
  let y3 := y2 ^^^ ((y2 <<< 15) &&& 4022730752)
  y3 ^^^ (y3 >>> 18)

/-- `random(self)`: twist when the cursor has reached 624, temper
`mt[index]`, advance the cursor by one and return
`float(_int32(y)) / 0xffffffff` (modelled as an exact rational). -/
def random (st : StableRandom) : ℚ × StableRandom :=
  let st1 := if 624 ≤ st.index then twist st else st
  let y := temper (st1.mt.getD st1.index 0)
  ((int32 y : ℚ) / 0xFFFFFFFF, { st1 with index := st1.index + 1 })

/-- Python's `int(...)` on a float/rational: truncation toward zero. -/
def intTrunc (q : ℚ) : ℤ := if 0 ≤ q then ⌊q⌋ else ⌈q⌉

/-- `_randbelow(self, n)`: `int(self.random() * n)`, with no validation of `n`. -/
def randbelow (st : StableRandom) (n : ℤ) : ℤ × StableRandom :=
  let r := random st
  (intTrunc (r.1 * (n : ℚ)), r.2)

/-- `getstate(self)`: the pair of the array (a copy, by value) and the cursor. -/
def getstate (st : StableRandom) : List Nat × Nat := (st.mt, st.index)

/-- `setstate(self, state)`: replace array and cursor verbatim, no validation. -/
def setstate (st : StableRandom) (s : List Nat × Nat) : StableRandom :=
  { st with mt := s.1, index := s.2 }

/-- The state reached after one call to `random` (discarding the value). -/
def next (st : StableRandom) : StableRandom := (random st).2

/-- The state reached after `n` calls to `random`. -/
def stateAfter (st : StableRandom) : Nat → StableRandom
  | 0 => st
  | n+1 => stateAfter (next st) n

/-- The list of the next `n` values returned by `random`. -/
def outputs (st : StableRandom) : Nat → List ℚ
  | 0 => []
  | n+1 => (random st).1 :: outputs (next st) n

/-- A state whose array is all zeroes with the cursor inside the array;
`random` from here returns exactly 0. -/
def zeroState : StableRandom := ⟨0, List.replicate 624 0, 0⟩

/-- A state whose array holds the temper-preimage of `0xFFFFFFFF`
everywhere; `random` from here returns exactly 1. -/
def maxState : StableRandom := ⟨0, List.replicate 624 316513203, 0⟩

/- ------------------------------------------------------------------ -/
/- Basic helper lemmas                                                 -/
/- ------------------------------------------------------------------ -/

theorem int32_le (x : Nat) : int32 x ≤ 0xFFFFFFFF :=
  Nat.and_le_left

theorem random_fst_nonneg (st : StableRandom) : 0 ≤ (random st).1 := by
  unfold random
  positivity

theorem random_fst_le_one (st : StableRandom) : (random st).1 ≤ 1 := by
  unfold random
  rw [div_le_one (by norm_num)]
  have h := int32_le (temper ((if 624 ≤ st.index then twist st else st).mt.getD
    (if 624 ≤ st.index then twist st else st).index 0))
  exact_mod_cast h

theorem setstate_getstate (st : StableRandom) : setstate st (getstate st) = st := rfl

/-- `random` never reads the stored seed, and writes only `mt` and `index`. -/
theorem random_seedSet (st : StableRandom) (s : Nat) :
    (random { st with seedStored := s }).1 = (random st).1 ∧
    (random { st with seedStored := s }).2 = { (random st).2 with seedStored := s } := by
  unfold random twist
  by_cases h : 624 ≤ st.index <;> simp [h]

theorem outputs_seedSet (k : Nat) : ∀ (st : StableRandom) (s : Nat),
    outputs { st with seedStored := s } k = outputs st k := by
  induction k with
  | zero => intro st s; rfl
  | succ n ih =>
    intro st s
    show (random { st with seedStored := s }).1 ::
        outputs (next { st with seedStored := s }) n = (random st).1 :: outputs (next st) n
    rw [(random_seedSet st s).1]
    have h2 : next { st with seedStored := s } = { next st with seedStored := s } :=
      (random_seedSet st s).2
    rw [h2, ih]

end StableRandom

open StableRandom

/- ------------------------------------------------------------------ -/
/- Claim theorems                                                      -/
/- ------------------------------------------------------------------ -/

/-- C8: restoring the exported state is the identity, so any number of
subsequent draws produces the same outputs and the same final state as the
original generator. -/
theorem claim_c8_state_roundtrip (st : StableRandom) (k : Nat) :
    setstate st (getstate st) = st ∧
    outputs (setstate st (getstate st)) k = outputs st k ∧
    stateAfter (setstate st (getstate st)) k = stateAfter st k := by
  refine ⟨rfl, ?_, ?_⟩ <;> rw [setstate_getstate]

/-- C10: re-seeding an existing instance only replaces the stored seed;
the array and the cursor are unchanged and every subsequent draw returns
exactly the same output stream. -/
theorem claim_c10_seed_frame (st : StableRandom) (s : Nat) (t : ℚ) (k : Nat) :
    (seedMethod st (some s) t).mt = st.mt ∧
    (seedMethod st (some s) t).index = st.index ∧
    outputs (seedMethod st (some s) t) k = outputs st k := by
  refine ⟨rfl, rfl, ?_⟩
  exact outputs_seedSet k st s

namespace StableRandom

/-- The `foldl` over `List.range 624` in `twistMt` visits the indices in
increasing order: it coincides with the step-by-step recursion `twistUpTo`. -/
theorem foldl_twistStep_range (mt : List Nat) (n : Nat) :
    (List.range n).foldl twistStep mt = twistUpTo mt n := by
  induction n with
  | zero => rfl
  | succ m ih => rw [List.range_succ, List.foldl_append, ih]; rfl

theorem twistMt_eq_twistUpTo (mt : List Nat) : twistMt mt = twistUpTo mt 624 :=
  foldl_twistStep_range mt 624

end StableRandom

/-- C1: the twist pass updates the 624 entries sequentially in index order:
step `i` computes `y = int32((A[i] & 0x80000000) + (A[(i+1) % 624] & 0x7fffffff))`
on the current, partially overwritten array `A`, writes
`A[(i+397) % 624] XOR (y >> 1)` (additionally XORed with 0x9908b0df when `y`
is odd) into slot `i`, and after all 624 updates the cursor is 0. -/
theorem claim_c1_twist_sequential (st : StableRandom) :
    twist st = { seedStored := st.seedStored, mt := twistUpTo st.mt 624, index := 0 } ∧
    (∀ (mt : List Nat) (i : Nat),
      twistUpTo mt (i+1) =
        (twistUpTo mt i).set i
          (if int32 (((twistUpTo mt i).getD i 0 &&& 0x80000000) +
                ((twistUpTo mt i).getD ((i+1) % 624) 0 &&& 0x7fffffff)) % 2 ≠ 0
           then ((twistUpTo mt i).getD ((i+397) % 624) 0 ^^^
                  (int32 (((twistUpTo mt i).getD i 0 &&& 0x80000000) +
                    ((twistUpTo mt i).getD ((i+1) % 624) 0 &&& 0x7fffffff)) >>> 1)) ^^^
                 0x9908b0df
           else (twistUpTo mt i).getD ((i+397) % 624) 0 ^^^
                  (int32 (((twistUpTo mt i).getD i 0 &&& 0x80000000) +
                    ((twistUpTo mt i).getD ((i+1) % 624) 0 &&& 0x7fffffff)) >>> 1))) := by
  constructor
  · show { st with mt := twistMt st.mt, index := 0 } = _
    rw [twistMt_eq_twistUpTo]
  · intro mt i
    rfl

namespace StableRandom

/-- The all-zero state draws exactly 0 (the left endpoint is attained). -/
theorem random_zero_attained : (random zeroState).1 = 0 := by
  have h : int32 (temper (zeroState.mt.getD zeroState.index 0)) = 0 := by decide
  show (int32 (temper (zeroState.mt.getD zeroState.index 0)) : ℚ) / 0xFFFFFFFF = 0
  rw [h]
  norm_num

/-- The state filled with the temper-preimage of the all-ones word draws
exactly 1 (the right endpoint is attained: division is by 0xFFFFFFFF, not
0x100000000). -/
theorem random_one_attained : (random maxState).1 = 1 := by
  show (int32 (temper (maxState.mt.getD maxState.index 0)) : ℚ) / 0xFFFFFFFF = 1
  rw [show int32 (temper (maxState.mt.getD maxState.index 0)) = 4294967295 from by decide]
  norm_num

end StableRandom

/-- C3: `random` twists exactly when the cursor is at least 624, returns the
tempered 32-bit value at the cursor divided by 0xFFFFFFFF, and advances the
cursor by exactly one; the value always lies in [0, 1] and both endpoints
are attained (at `zeroState` and `maxState` respectively), since the
division is by the maximum 32-bit value rather than the maximum plus one. -/
theorem claim_c3_random_draw (st : StableRandom) :
    random st =
      ((int32 (temper ((if 624 ≤ st.index then twist st else st).mt.getD
          (if 624 ≤ st.index then twist st else st).index 0)) : ℚ) / 0xFFFFFFFF,
       { (if 624 ≤ st.index then twist st else st) with
          index := (if 624 ≤ st.index then twist st else st).index + 1 }) ∧
    0 ≤ (random st).1 ∧ (random st).1 ≤ 1 ∧
    (random zeroState).1 = 0 ∧ (random maxState).1 = 1 := by
  refine ⟨rfl, random_fst_nonneg st, random_fst_le_one st, random_zero_attained,
    random_one_attained⟩

namespace StableRandom

/-- Head of `initAux`: the recurrence value at the first generated index. -/
theorem initAux_getD_zero (p i n : Nat) (h : 0 < n) :
    (initAux p i n).getD 0 0 = int32 (1812433253 * (p ^^^ (p >>> 30)) + i) := by
  cases n with
  | zero => exact (Nat.lt_irrefl 0 h).elim
  | succ m => rfl

/-- Consecutive entries of `initAux` are linked by the `__init__` recurrence. -/
theorem initAux_getD_succ : ∀ (j p i n : Nat), j + 1 < n →
    (initAux p i n).getD (j+1) 0 =
      int32 (1812433253 * ((initAux p i n).getD j 0 ^^^
        ((initAux p i n).getD j 0 >>> 30)) + (i + j + 1)) := by
  intro j
  induction j with
  | zero =>
    intro p i n h
    obtain ⟨m, rfl⟩ : ∃ m, n = m + 1 := ⟨n - 1, by omega⟩
    have hm : 0 < m := by omega
    rw [initAux_getD_zero p i (m+1) (by omega)]
    show (initAux (int32 (1812433253 * (p ^^^ (p >>> 30)) + i)) (i+1) m).getD 0 0 = _
    rw [initAux_getD_zero _ (i+1) m hm]
  | succ k ih =>
    intro p i n h
    obtain ⟨m, rfl⟩ : ∃ m, n = m + 1 := ⟨n - 1, by omega⟩
    show (initAux (int32 (1812433253 * (p ^^^ (p >>> 30)) + i)) (i+1) m).getD (k+1) 0 = _
    rw [ih _ (i+1) m (by omega)]
    rw [show i + 1 + k + 1 = i + (k + 1) + 1 from by omega]
    rfl

/-- The `__init__` recurrence, stated on the whole array `initMt`. -/
theorem initMt_getD_succ (s : Nat) (i : Nat) (h1 : 1 ≤ i) (h2 : i < 624) :
    (initMt s).getD i 0 =
      int32 (1812433253 * ((initMt s).getD (i-1) 0 ^^^
        ((initMt s).getD (i-1) 0 >>> 30)) + i) := by
  obtain ⟨j, rfl⟩ : ∃ j, i = j + 1 := ⟨i - 1, by omega⟩
  cases j with
  | zero =>
    show (initAux s 1 623).getD 0 0 = _
    rw [initAux_getD_zero s 1 623 (by omega)]
    rfl
  | succ k =>
    show (initAux s 1 623).getD (k+1) 0 = _
    rw [initAux_getD_succ k s 1 623 (by omega)]
    rw [show (1:Nat) + k + 1 = k + 1 + 1 from by omega]
    rfl

/-- A draw from a state whose cursor has reached 624 twists first: the new
array is the twisted one and the cursor ends at 1. -/
theorem next_twist (st : StableRandom) (h : 624 ≤ st.index) :
    next st = ⟨st.seedStored, twistMt st.mt, 1⟩ := by
  show ({ (if 624 ≤ st.index then twist st else st) with
      index := (if 624 ≤ st.index then twist st else st).index + 1 } : StableRandom) = _
  rw [if_pos h]
  simp only [twist]

/-- A draw from a state whose cursor is strictly below 624 does not twist:
only the cursor advances. -/
theorem next_no_twist (sd : Nat) (m : List Nat) (k : Nat) (h : k < 624) :
    next ⟨sd, m, k⟩ = ⟨sd, m, k + 1⟩ := by
  show ({ (if 624 ≤ (⟨sd, m, k⟩ : StableRandom).index then twist ⟨sd, m, k⟩ else ⟨sd, m, k⟩) with
      index := (if 624 ≤ (⟨sd, m, k⟩ : StableRandom).index then twist ⟨sd, m, k⟩
        else ⟨sd, m, k⟩).index + 1 } : StableRandom) = _
  rw [if_neg (show ¬ 624 ≤ (⟨sd, m, k⟩ : StableRandom).index from by
    show ¬ 624 ≤ k
    omega)]

end StableRandom

/-- C2: construction with an explicit seed `s` sets `mt[0] = s`, fills
indices 1..623 with the scramble recurrence
`mt[i] = int32(1812433253 * (mt[i-1] XOR (mt[i-1] >> 30)) + i)`, and sets
the cursor to 624, so the first draw twists the array before any value is
produced. -/
theorem claim_c2_seeding (s : Nat) (t : ℚ) :
    (init (some s) t).mt.getD 0 0 = s ∧
    (∀ i, 1 ≤ i → i < 624 →
      (init (some s) t).mt.getD i 0 =
        int32 (1812433253 * ((init (some s) t).mt.getD (i-1) 0 ^^^
          ((init (some s) t).mt.getD (i-1) 0 >>> 30)) + i)) ∧
    (init (some s) t).index = 624 ∧
    (next (init (some s) t)).mt = twistMt (initMt s) := by
  refine ⟨rfl, ?_, rfl, ?_⟩
  · intro i h1 h2
    exact initMt_getD_succ s i h1 h2
  · have h2 : (init (some s) t).mt = initMt s := rfl
    have h1 := next_twist (init (some s) t) (le_refl 624)
    rw [h2] at h1
    rw [h1]

/-- C2 witness: the recurrence instantiated at seed 5, index 3. -/
theorem claim_c2_seeding_witness :
    (1 ≤ 3 ∧ (3:Nat) < 624) ∧
    (init (some 5) 0).mt.getD 3 0 =
      int32 (1812433253 * ((init (some 5) 0).mt.getD 2 0 ^^^
        ((init (some 5) 0).mt.getD 2 0 >>> 30)) + 3) :=
  ⟨⟨by decide, by decide⟩, (claim_c2_seeding 5 0).2.1 3 (by decide) (by decide)⟩

namespace StableRandom

/-- Truncation toward zero of a value in the interval `[a, b]` (integer
endpoints) stays in `[a, b]`. -/
theorem intTrunc_bounds (x : ℚ) (a b : ℤ) (ha : (a:ℚ) ≤ x) (hb : x ≤ (b:ℚ)) :
    a ≤ intTrunc x ∧ intTrunc x ≤ b := by
  unfold intTrunc
  by_cases h : 0 ≤ x
  · rw [if_pos h]
    refine ⟨Int.le_floor.mpr ha, ?_⟩
    calc ⌊x⌋ ≤ ⌊(b:ℚ)⌋ := Int.floor_le_floor hb
      _ = b := Int.floor_intCast b
  · rw [if_neg h]
    refine ⟨?_, Int.ceil_le.mpr hb⟩
    calc a = ⌈(a:ℚ)⌉ := (Int.ceil_intCast a).symm
      _ ≤ ⌈x⌉ := Int.ceil_le_ceil ha

end StableRandom

/-- C5 counterexample: `below(0)` and `below(-5)` do not signal any
invalid-argument failure; both silently return the integer 0 (the code has
no validation path at all). -/
theorem claim_c5_counterexample :
    (randbelow zeroState 0).1 = 0 ∧ (randbelow zeroState (-5)).1 = 0 := by
  constructor <;>
  · show intTrunc ((random zeroState).1 * _) = 0
    rw [random_zero_attained]
    norm_num [intTrunc]

/-- C5 amended: for `n ≤ 0`, `below(n)` does not fail; it returns
`int(random() * n)`, an integer in the interval `[n, 0]` — in particular
`below(0)` returns 0 and `below(-5)` returns a non-positive integer
greater than or equal to -5. -/
theorem claim_c5_below_nonpos (n : ℤ) (st : StableRandom) (h : n ≤ 0) :
    (randbelow st n).1 = intTrunc ((random st).1 * (n:ℚ)) ∧
    n ≤ (randbelow st n).1 ∧ (randbelow st n).1 ≤ 0 := by
  have hq0 := random_fst_nonneg st
  have hq1 := random_fst_le_one st
  have hn : (n:ℚ) ≤ 0 := by exact_mod_cast h
  have hxn : (n:ℚ) ≤ (random st).1 * (n:ℚ) := by nlinarith
  have hx0 : (random st).1 * (n:ℚ) ≤ ((0:ℤ):ℚ) := by push_cast; nlinarith
  exact ⟨rfl, intTrunc_bounds _ n 0 hxn hx0⟩

/-- C5 witness: the amended bound instantiated at `n = -5` from the
all-zero state. -/
theorem claim_c5_below_nonpos_witness :
    ((-5:ℤ) ≤ 0) ∧
    ((randbelow zeroState (-5)).1 = intTrunc ((random zeroState).1 * ((-5:ℤ):ℚ)) ∧
     (-5:ℤ) ≤ (randbelow zeroState (-5)).1 ∧ (randbelow zeroState (-5)).1 ≤ 0) :=
  ⟨by decide, claim_c5_below_nonpos (-5) zeroState (by decide)⟩

/-- C6 counterexample: from the reachable state `maxState` (installable
verbatim through `setstate`, which performs no validation), `below(10)`
returns 10, which is not in the half-open range `[0, 10)`: the underlying
draw is exactly 1 because the division is by 0xFFFFFFFF rather than
0x100000000. -/
theorem claim_c6_counterexample :
    (randbelow maxState 10).1 = 10 ∧ ¬ (randbelow maxState 10).1 < 10 := by
  have he : (randbelow maxState 10).1 = intTrunc ((random maxState).1 * ((10:ℤ):ℚ)) := rfl
  rw [he, random_one_attained]
  norm_num [intTrunc]

/-- C6 amended: for `n > 0`, `below(n)` returns `floor(random() * n)`, an
integer in the closed range `[0, n]`; the upper endpoint `n` itself is
attained exactly when the draw is 1.0, so the half-open bound `[0, n)` of
the original claim holds only for draws below 1. -/
theorem claim_c6_below_floor (n : ℤ) (st : StableRandom) (h : 0 < n) :
    (randbelow st n).1 = ⌊(random st).1 * (n:ℚ)⌋ ∧
    0 ≤ (randbelow st n).1 ∧ (randbelow st n).1 ≤ n := by
  have hq0 := random_fst_nonneg st
  have hq1 := random_fst_le_one st
  have hn : (0:ℚ) ≤ (n:ℚ) := by exact_mod_cast h.le
  have hx0 : ((0:ℤ):ℚ) ≤ (random st).1 * (n:ℚ) := by push_cast; positivity
  have hxn : (random st).1 * (n:ℚ) ≤ (n:ℚ) := by nlinarith
  have he : (randbelow st n).1 = intTrunc ((random st).1 * (n:ℚ)) := rfl
  refine ⟨?_, ?_⟩
  · rw [he, intTrunc, if_pos (by exact_mod_cast hx0)]
  · rw [he]
    exact intTrunc_bounds _ 0 n hx0 hxn

/-- C6 witness: the amended statement instantiated at `n = 10` from the
all-zero state. -/
theorem claim_c6_below_floor_witness :
    ((0:ℤ) < 10) ∧
    ((randbelow zeroState 10).1 = ⌊(random zeroState).1 * ((10:ℤ):ℚ)⌋ ∧
     0 ≤ (randbelow zeroState 10).1 ∧ (randbelow zeroState 10).1 ≤ 10) :=
  ⟨by decide, claim_c6_below_floor 10 zeroState (by decide)⟩

namespace StableRandom

/-- While the cursor stays strictly below 624, draws advance only the
cursor: no regeneration happens. -/
theorem stateAfter_no_twist (m : Nat) : ∀ (sd : Nat) (mtl : List Nat) (k : Nat),
    k + m ≤ 624 → stateAfter ⟨sd, mtl, k⟩ m = ⟨sd, mtl, k + m⟩ := by
  induction m with
  | zero => intro sd mtl k h; rfl
  | succ p ih =>
    intro sd mtl k h
    show stateAfter (next ⟨sd, mtl, k⟩) p = _
    rw [next_no_twist sd mtl k (by omega)]
    rw [ih sd mtl (k+1) (by omega)]
    congr 1
    omega

/-- After `k` draws (1 ≤ k ≤ 624) from a freshly seeded generator, the
array is the once-twisted initial array and the cursor equals `k`: the
regeneration ran exactly once, at the first draw. -/
theorem stateAfter_init (s : Nat) (t : ℚ) (k : Nat) (h1 : 1 ≤ k) (h2 : k ≤ 624) :
    stateAfter (init (some s) t) k = ⟨s, twistMt (initMt s), k⟩ := by
  obtain ⟨j, rfl⟩ : ∃ j, k = j + 1 := ⟨k - 1, by omega⟩
  simp only [stateAfter]
  have hn := next_twist (init (some s) t) (le_refl 624)
  rw [show (init (some s) t).mt = initMt s from rfl,
    show (init (some s) t).seedStored = s from rfl] at hn
  rw [hn, stateAfter_no_twist j s (twistMt (initMt s)) 1 (by omega)]
  congr 1
  omega

/-- The value drawn from a state whose cursor has reached 624 is the
tempered head of the freshly twisted array. -/
theorem random_fst_twist (st : StableRandom) (h : 624 ≤ st.index) :
    (random st).1 = (int32 (temper ((twistMt st.mt).getD 0 0)) : ℚ) / 0xFFFFFFFF := by
  show (int32 (temper ((if 624 ≤ st.index then twist st else st).mt.getD
      (if 624 ≤ st.index then twist st else st).index 0)) : ℚ) / 0xFFFFFFFF = _
  rw [if_pos h]
  simp only [twist]

end StableRandom

/-- C7: a freshly seeded generator twists exactly once in its first 624
draws — at the first draw, never again before draw 625 — so after `k`
draws (1 ≤ k ≤ 624) the array is the once-twisted one with cursor `k`,
and the 625th draw returns the first tempered value of the twice-twisted
(second) array. -/
theorem claim_c7_regeneration_boundary (s : Nat) (t : ℚ) (k : Nat)
    (h1 : 1 ≤ k) (h2 : k ≤ 624) :
    stateAfter (init (some s) t) k = ⟨s, twistMt (initMt s), k⟩ ∧
    (random (stateAfter (init (some s) t) 624)).1 =
      (int32 (temper ((twistMt (twistMt (initMt s))).getD 0 0)) : ℚ) / 0xFFFFFFFF := by
  refine ⟨stateAfter_init s t k h1 h2, ?_⟩
  rw [stateAfter_init s t 624 (by omega) (le_refl 624)]
  rw [random_fst_twist ⟨s, twistMt (initMt s), 624⟩ (le_refl 624)]

/-- C7 witness: the regeneration boundary for seed 0 at k = 624. -/
theorem claim_c7_regeneration_boundary_witness :
    ((1:Nat) ≤ 624 ∧ (624:Nat) ≤ 624) ∧
    (stateAfter (init (some 0) 0) 624 = ⟨0, twistMt (initMt 0), 624⟩ ∧
     (random (stateAfter (init (some 0) 0) 624)).1 =
       (int32 (temper ((twistMt (twistMt (initMt 0))).getD 0 0)) : ℚ) / 0xFFFFFFFF) :=
  ⟨⟨by decide, by decide⟩, claim_c7_regeneration_boundary 0 0 624 (by decide) (by decide)⟩

namespace StableRandom

/-- The value drawn without a twist (cursor strictly below 624) is the
tempered array entry at the cursor. -/
theorem random_fst_no_twist (sd : Nat) (m : List Nat) (k : Nat) (h : k < 624) :
    (random ⟨sd, m, k⟩).1 = (int32 (temper (m.getD k 0)) : ℚ) / 0xFFFFFFFF := by
  show (int32 (temper ((if 624 ≤ (⟨sd, m, k⟩ : StableRandom).index then twist ⟨sd, m, k⟩
      else ⟨sd, m, k⟩).mt.getD
      (if 624 ≤ (⟨sd, m, k⟩ : StableRandom).index then twist ⟨sd, m, k⟩
      else ⟨sd, m, k⟩).index 0)) : ℚ) / 0xFFFFFFFF = _
  rw [if_neg (show ¬ 624 ≤ (⟨sd, m, k⟩ : StableRandom).index from by
    show ¬ 624 ≤ k
    omega)]

/-- The first tempered word for seed 0 is 2357136044 (computed through the
full initialization and one twist pass). -/
theorem seed0_word0 : int32 (temper ((twistMt (initMt 0)).getD 0 0)) = 2357136044 := by
  decide

/-- The second tempered word for seed 0 is 2546248239. -/
theorem seed0_word1 : int32 (temper ((twistMt (initMt 0)).getD 1 0)) = 2546248239 := by
  decide

/-- For seed 0, the call `below(10)` made immediately after the first draw
truncates `2546248239 / 0xFFFFFFFF * 10` and returns 5. -/
theorem below10_second_draw : (randbelow (next (init (some 0) 0)) 10).1 = 5 := by
  have hn := next_twist (init (some 0) 0) (le_refl 624)
  rw [show (init (some 0) 0).mt = initMt 0 from rfl,
    show (init (some 0) 0).seedStored = 0 from rfl] at hn
  have he : (randbelow (next (init (some 0) 0)) 10).1 =
      intTrunc ((random (next (init (some 0) 0))).1 * ((10:ℤ):ℚ)) := rfl
  rw [he, hn, random_fst_no_twist 0 (twistMt (initMt 0)) 1 (by omega), seed0_word1]
  rw [intTrunc, if_pos (by positivity)]
  rw [Int.floor_eq_iff]
  constructor <;> norm_num

end StableRandom

/-- C4 counterexample: for seed 0, the `below(10)` call made immediately
after the first draw returns 5, not 6 (the value 6 in the source doctest
is `randint(1, 10)`, which is `1 + below(10)`). -/
theorem claim_c4_counterexample :
    (randbelow (next (init (some 0) 0)) 10).1 = 5 ∧
    (randbelow (next (init (some 0) 0)) 10).1 ≠ 6 :=
  ⟨below10_second_draw, by rw [below10_second_draw]; decide⟩

/-- C4 amended: for seed 0 the first draw is within 1e-12 of
0.5488135024320365, and the immediately following `below(10)` returns 5
(from the second raw word 2546248239), not 6. -/
theorem claim_c4_literal_scenario :
    |(random (init (some 0) 0)).1 - 0.5488135024320365| < 1e-12 ∧
    (randbelow (next (init (some 0) 0)) 10).1 = 5 := by
  refine ⟨?_, below10_second_draw⟩
  have h1 := random_fst_twist (init (some 0) 0) (le_refl 624)
  rw [show (init (some 0) 0).mt = initMt 0 from rfl] at h1
  rw [h1, seed0_word0, abs_sub_lt_iff]
  constructor <;> norm_num

namespace StableRandom

theorem int32_lt (x : Nat) : int32 x < 2^32 := by
  have h := int32_le x
  omega

/-- The value written by one twist iteration, read off the current array. -/
def twistVal (a : List Nat) (i : Nat) : Nat :=
  let y := int32 ((a.getD i 0 &&& 0x80000000) + (a.getD ((i+1) % 624) 0 &&& 0x7fffffff))
  let v := a.getD ((i+397) % 624) 0 ^^^ (y >>> 1)
  if y % 2 ≠ 0 then v ^^^ 0x9908b0df else v

theorem twistStep_eq_set (a : List Nat) (i : Nat) :
    twistStep a i = a.set i (twistVal a i) := rfl

/-- The written word is 32-bit as soon as the entry read at
`(i+397) % 624` is: the `y` word is masked and XOR preserves the bound. -/
theorem twistVal_lt (a : List Nat) (i : Nat)
    (hread : a.getD ((i+397) % 624) 0 < 2^32) : twistVal a i < 2^32 := by
  unfold twistVal
  set y := int32 ((a.getD i 0 &&& 0x80000000) + (a.getD ((i+1) % 624) 0 &&& 0x7fffffff)) with hy
  have h1 : y >>> 1 < 2^32 := by
    have h2 : y >>> 1 ≤ y := by
      rw [Nat.shiftRight_eq_div_pow]
      exact Nat.div_le_self y (2^1)
    exact lt_of_le_of_lt h2 (int32_lt _)
  have hx : a.getD ((i+397) % 624) 0 ^^^ (y >>> 1) < 2^32 :=
    Nat.xor_lt_two_pow hread h1
  by_cases hodd : y % 2 ≠ 0
  · rw [if_pos hodd]
    exact Nat.xor_lt_two_pow hx (by norm_num)
  · rw [if_neg hodd]
    exact hx

theorem getD_set_eq : ∀ (l : List Nat) (i v : Nat), i < l.length →
    (l.set i v).getD i 0 = v := by
  intro l
  induction l with
  | nil => intro i v h; simp at h
  | cons a tl ih =>
    intro i v h
    cases i with
    | zero => rfl
    | succ j =>
      show (tl.set j v).getD j 0 = v
      exact ih j v (by simpa using h)

theorem getD_set_ne : ∀ (l : List Nat) (i j v : Nat), i ≠ j →
    (l.set i v).getD j 0 = l.getD j 0 := by
  intro l
  induction l with
  | nil => intro i j v _; rfl
  | cons a tl ih =>
    intro i j v h
    cases i with
    | zero =>
      cases j with
      | zero => exact absurd rfl h
      | succ p => rfl
    | succ q =>
      cases j with
      | zero => rfl
      | succ p =>
        show (tl.set q v).getD p 0 = tl.getD p 0
        exact ih q p v (by omega)

theorem twistUpTo_length (mtl : List Nat) : ∀ n, (twistUpTo mtl n).length = mtl.length := by
  intro n
  induction n with
  | zero => rfl
  | succ p ih =>
    show (twistStep (twistUpTo mtl p) p).length = mtl.length
    rw [twistStep_eq_set, List.length_set, ih]

/-- Main masking invariant of the twist pass: provided the original array
has length 624 and is 32-bit masked from index 1 on (index 0, the raw
seed slot, need not be), after `n ≤ 624` iterations the first `n` entries
are freshly written 32-bit words and the rest still hold their original
values. -/
theorem twistUpTo_masked (mtl : List Nat) (hlen : mtl.length = 624)
    (hm : ∀ j, 1 ≤ j → mtl.getD j 0 < 2^32) :
    ∀ n, n ≤ 624 →
      (∀ j, j < n → (twistUpTo mtl n).getD j 0 < 2^32) ∧
      (∀ j, n ≤ j → (twistUpTo mtl n).getD j 0 = mtl.getD j 0) := by
  intro n
  induction n with
  | zero => exact fun _ => ⟨fun j hj => absurd hj (Nat.not_lt_zero j), fun j _ => rfl⟩
  | succ p ih =>
    intro hn
    obtain ⟨ih1, ih2⟩ := ih (by omega)
    have hlenA : (twistUpTo mtl p).length = 624 := by rw [twistUpTo_length, hlen]
    have hread : (twistUpTo mtl p).getD ((p+397) % 624) 0 < 2^32 := by
      by_cases hc : p + 397 < 624
      · rw [show (p+397) % 624 = p + 397 from Nat.mod_eq_of_lt hc]
        rw [ih2 (p+397) (by omega)]
        exact hm (p+397) (by omega)
      · rw [show (p+397) % 624 = p - 227 from by omega]
        exact ih1 (p - 227) (by omega)
    have hval : twistVal (twistUpTo mtl p) p < 2^32 := twistVal_lt _ p hread
    have hstep : twistUpTo mtl (p+1) =
        (twistUpTo mtl p).set p (twistVal (twistUpTo mtl p) p) := twistStep_eq_set _ p
    constructor
    · intro j hj
      rw [hstep]
      by_cases hjp : j = p
      · subst hjp
        rw [getD_set_eq _ j _ (by omega)]
        exact hval
      · rw [getD_set_ne _ p j _ (by omega)]
        exact ih1 j (by omega)
    · intro j hj
      rw [hstep, getD_set_ne _ p j _ (by omega)]
      exact ih2 j (by omega)

theorem initAux_getD_lt : ∀ (n p i j : Nat), j < n → (initAux p i n).getD j 0 < 2^32 := by
  intro n
  induction n with
  | zero => intro p i j h; omega
  | succ m ih =>
    intro p i j h
    cases j with
    | zero => exact int32_lt _
    | succ q =>
      show (initAux _ (i+1) m).getD q 0 < 2^32
      exact ih _ (i+1) q (by omega)

theorem initAux_length : ∀ (n p i : Nat), (initAux p i n).length = n := by
  intro n
  induction n with
  | zero => intro p i; rfl
  | succ m ih =>
    intro p i
    show (initAux _ (i+1) m).length + 1 = m + 1
    rw [ih _ (i+1)]

theorem initMt_length (s : Nat) : (initMt s).length = 624 := by
  show (initAux s 1 623).length + 1 = 624
  rw [initAux_length]

/-- All entries of the freshly built array except slot 0 are 32-bit. -/
theorem initMt_getD_lt (s : Nat) (j : Nat) (hj : 1 ≤ j) : (initMt s).getD j 0 < 2^32 := by
  obtain ⟨q, rfl⟩ : ∃ q, j = q + 1 := ⟨j - 1, by omega⟩
  show (initAux s 1 623).getD q 0 < 2^32
  by_cases hq : q < 623
  · exact initAux_getD_lt 623 s 1 q hq
  · rw [List.getD_eq_default _ _ (by rw [initAux_length]; omega)]
    norm_num

end StableRandom

/-- C9 counterexample: no masking is applied to the stored seed, neither
for an explicit seed nor for the time-derived one.  Constructing with the
seed 2^32 = 4294967296 leaves `mt[0] = 4294967296 > 0xFFFFFFFF`, and a
construction without a seed at wall-clock time 1760000000 (October 2025)
stores `int(1760000000 * 256) = 450560000000 > 0xFFFFFFFF` in `mt[0]`. -/
theorem claim_c9_counterexample :
    (init (some 4294967296) 0).mt.getD 0 0 = 4294967296 ∧
    0xFFFFFFFF < (init (some 4294967296) 0).mt.getD 0 0 ∧
    (init none 1760000000).mt.getD 0 0 = 450560000000 ∧
    0xFFFFFFFF < (init none 1760000000).mt.getD 0 0 := by
  have ht : (init none (1760000000:ℚ)).mt.getD 0 0 = (⌊(1760000000:ℚ) * 256⌋).toNat := rfl
  have hv : (⌊(1760000000:ℚ) * 256⌋).toNat = 450560000000 := by
    rw [show (1760000000:ℚ) * 256 = ((450560000000:ℤ):ℚ) from by norm_num]
    rw [Int.floor_intCast]
    rfl
  have hs : (init (some 4294967296) 0).mt.getD 0 0 = 4294967296 := rfl
  refine ⟨rfl, ?_, ?_, ?_⟩
  · rw [hs]
    norm_num
  · rw [ht, hv]
  · rw [ht, hv]
    norm_num

/-- C9 amended: after construction every array entry except slot 0 is
32-bit masked; slot 0 holds the seed verbatim — without any truncation to
32 bits, whether supplied or time-derived — so the all-entries invariant
holds only for seeds below 2^32.  After the first draw (which twists) all
624 entries are 32-bit masked again. -/
theorem claim_c9_masking (s : Nat) (t : ℚ) :
    (∀ i, 1 ≤ i → (init (some s) t).mt.getD i 0 ≤ 0xFFFFFFFF) ∧
    (init (some s) t).mt.getD 0 0 = s ∧
    (∀ i, (next (init (some s) t)).mt.getD i 0 ≤ 0xFFFFFFFF) := by
  refine ⟨?_, rfl, ?_⟩
  · intro i hi
    have h := initMt_getD_lt s i hi
    show (initMt s).getD i 0 ≤ 0xFFFFFFFF
    omega
  · intro i
    have hn := next_twist (init (some s) t) (le_refl 624)
    rw [show (init (some s) t).mt = initMt s from rfl,
      show (init (some s) t).seedStored = s from rfl] at hn
    have hmt : (next (init (some s) t)).mt = twistMt (initMt s) := by rw [hn]
    rw [hmt, twistMt_eq_twistUpTo]
    have hmask := twistUpTo_masked (initMt s) (initMt_length s)
      (fun j hj => initMt_getD_lt s j hj) 624 (le_refl 624)
    by_cases hc : i < 624
    · have h := hmask.1 i hc
      omega
    · rw [List.getD_eq_default _ _ (by rw [twistUpTo_length, initMt_length]; omega)]
      norm_num

/-- C9 witness: the amended masking statement at seed 7, index 3. -/
theorem claim_c9_masking_witness :
    ((1:Nat) ≤ 3) ∧ (init (some 7) 0).mt.getD 3 0 ≤ 0xFFFFFFFF :=
  ⟨by decide, (claim_c9_masking 7 0).1 3 (by decide)⟩
